import Mathlib

/-!
Verification development for the ReadToMyShoe text-to-speech pipeline
(server side): the bounded-size text chunker, the parallel TTS dispatcher,
the content-derived article identifier, and the add-article pipeline with
its admission limiter and crash-safe storage write.

Strings are modelled as lists of bytes (`List Nat`): a Rust `&str` is a
UTF-8 byte sequence, `str::len` is its byte length, `str::split_at` splits
at byte indices, and `str::match_indices(char)` for the ASCII delimiters
used here returns exactly the byte positions of the delimiter byte.
-/

namespace RTMS

/-- A byte string (the model of Rust `&str` / `Vec<u8>` contents). -/
abbrev Bytes := List Nat

/-- Concatenation of a list of byte strings (Rust `Vec<Bytes>::concat`,
`chunks` flattening). -/
def concat_all : List Bytes → Bytes
  | [] => []
  | c :: cs => c ++ concat_all cs

/-- `Iterator::flat_map` specialised to lists, as used in
`break_greedily_at_delims`. -/
def flat_map (f : Bytes → List Bytes) : List Bytes → List Bytes
  | [] => []
  | c :: cs => f c ++ flat_map f cs

/-- Byte positions (from offset `i`) at which byte `d` occurs:
`str::match_indices(delim)` for a one-byte (ASCII) delimiter. The
positions are produced in increasing order. -/
def match_indices (d : Nat) : List Nat → Nat → List Nat
  | [], _ => []
  | b :: rest, i =>
      if b = d then i :: match_indices d rest (i + 1) else match_indices d rest (i + 1)

/-- One iteration of the break-selection loop in `break_greedily_at_delim`
(tts.rs lines 180–204).  State: the chosen break positions so far and the
last candidate break.  `breaks.last().unwrap_or(&0)` is the previous chosen
break. -/
def break_step (maxc eof : Nat) (st : List Nat × Option Nat) (cur : Nat) :
    List Nat × Option Nat :=
  let breaks := st.1
  let cand := st.2
  let last := breaks.getLast?.getD 0
  if cur - last ≤ maxc then
    (breaks, some cur)
  else
    match cand with
    | some b => (breaks ++ [b], some cur)
    | none => if cur = eof then (breaks, none) else (breaks ++ [cur], none)

/-- The full break-position computation of `break_greedily_at_delim`:
fold `break_step` over all delimiter positions followed by EOF. -/
def compute_breaks (text : Bytes) (delim maxc : Nat) : List Nat :=
  let eof := text.length
  ((match_indices delim text 0 ++ [eof]).foldl (break_step maxc eof) ([], none)).1

/-- Recursive core of `split_at_multi` (tts.rs lines 143–163): split the
running remainder at `idx - last_idx` and recurse; the delimiter-stripping
line is commented out in the source, so nothing is removed. -/
def split_at_multi_go : List Nat → Nat → Bytes → List Bytes
  | [], _, text => [text]
  | idx :: rest, last, text =>
      text.take (idx - last) :: split_at_multi_go rest idx (text.drop (idx - last))

/-- `split_at_multi(text, indices)`: split `text` at all the given byte
indices. -/
def split_at_multi (text : Bytes) (indices : List Nat) : List Bytes :=
  split_at_multi_go indices 0 text

/-- `break_greedily_at_delim(text, delim, max_chunk_size)`: best-effort
greedy chunking at a single delimiter. -/
def break_greedily_at_delim (text : Bytes) (delim maxc : Nat) : List Bytes :=
  split_at_multi text (compute_breaks text delim maxc)

/-- `break_greedily_at_delims(text, max_chunk_size, delims)` (tts.rs lines
214–245) with the delimiter list split into its head `d0` and tail `rest`
(the source indexes `delims[0]` and `delims[1..]`; every caller passes a
non-empty list).  Returns `none` exactly when the final size check bails
with the "Couldn't break chunk" (UnbreakableChunk) error. -/
def break_greedily_at_delims (text : Bytes) (maxc : Nat) (d0 : Nat) (rest : List Nat) :
    Option (List Bytes) :=
  let init := break_greedily_at_delim text d0 maxc
  let chunks := rest.foldl
    (fun cs d =>
      flat_map (fun c => if maxc < c.length then break_greedily_at_delim c d maxc else [c]) cs)
    init
  if chunks.all (fun c => decide (c.length ≤ maxc)) then some chunks else none

/-- `break_english_text(text, max_chunk_size)`: chunk at newlines, then
colons, then periods, then commas (byte values 10, 58, 46, 44). -/
def break_english_text (text : Bytes) (maxc : Nat) : Option (List Bytes) :=
  break_greedily_at_delims text maxc 10 [58, 46, 44]

lemma concat_all_append (a b : List Bytes) :
    concat_all (a ++ b) = concat_all a ++ concat_all b := by
  induction a with
  | nil => simp [concat_all]
  | cons c cs ih => simp [concat_all, ih]

lemma concat_all_split_at_multi_go (idxs : List Nat) (last : Nat) (text : Bytes) :
    concat_all (split_at_multi_go idxs last text) = text := by
  induction idxs generalizing last text with
  | nil => simp [split_at_multi_go, concat_all]
  | cons idx rest ih =>
      simp [split_at_multi_go, concat_all, ih, List.take_append_drop]

lemma concat_all_break_greedily_at_delim (text : Bytes) (delim maxc : Nat) :
    concat_all (break_greedily_at_delim text delim maxc) = text :=
  concat_all_split_at_multi_go _ _ _

lemma concat_all_flat_map (f : Bytes → List Bytes) (hf : ∀ c, concat_all (f c) = c)
    (cs : List Bytes) : concat_all (flat_map f cs) = concat_all cs := by
  induction cs with
  | nil => simp [flat_map]
  | cons c rest ih => simp [flat_map, concat_all, concat_all_append, hf, ih]

lemma concat_all_delim_foldl (ds : List Nat) (maxc : Nat) (cs : List Bytes) :
    concat_all (ds.foldl
      (fun cs d =>
        flat_map (fun c => if maxc < c.length then break_greedily_at_delim c d maxc else [c]) cs)
      cs) = concat_all cs := by
  induction ds generalizing cs with
  | nil => rfl
  | cons d rest ih =>
      rw [List.foldl_cons, ih]
      apply concat_all_flat_map
      intro c
      by_cases hc : maxc < c.length
      · simp [hc, concat_all_break_greedily_at_delim]
      · simp [hc, concat_all]

/-- C1: for every input text and every `max_chunk_size ≥ 4`, if the chunker
`break_english_text` returns successfully then every emitted chunk's byte
length is at most `max_chunk_size`; otherwise it reports the
UnbreakableChunk error (modelled as `none`), so it never returns
successfully with an over-limit chunk. -/
theorem chunk_size_bound (text : Bytes) (maxc : Nat) (chunks : List Bytes)
    (_h4 : 4 ≤ maxc) (h : break_english_text text maxc = some chunks) :
    ∀ c ∈ chunks, c.length ≤ maxc := by
  intro c hc
  simp only [break_english_text, break_greedily_at_delims] at h
  split at h
  · cases h
    next hall => exact by simpa using List.all_eq_true.mp hall c hc
  · cases h

/-- Witness for `chunk_size_bound` at a concrete input. -/
theorem chunk_size_bound_witness :
    List.length ([10, 97, 46, 98] : Bytes) ≤ 4 :=
  chunk_size_bound [10, 97, 46, 98] 4 [[10, 97, 46, 98]] (by decide) (by decide)
    [10, 97, 46, 98] (by decide)

/-- C2: whenever the chunker returns successfully, concatenating the
emitted chunks in order reproduces the original input text exactly (the
source's delimiter-stripping line is commented out, so no delimiter
characters are consumed at boundaries: plain concatenation suffices). -/
theorem chunk_reconstruction (text : Bytes) (maxc : Nat) (chunks : List Bytes)
    (h : break_english_text text maxc = some chunks) :
    concat_all chunks = text := by
  simp only [break_english_text, break_greedily_at_delims] at h
  split at h
  · cases h
    rw [concat_all_delim_foldl, concat_all_break_greedily_at_delim]
  · cases h

/-- Witness for `chunk_reconstruction` at a concrete input. -/
theorem chunk_reconstruction_witness :
    concat_all [[], [10, 97], [46, 98]] = [10, 97, 46, 98] :=
  chunk_reconstruction [10, 97, 46, 98] 2 [[], [10, 97], [46, 98]] (by decide)

/-- C9 counterexample: the chunker can emit empty chunks.  Empty input
text yields one empty chunk (not zero chunks), and a delimiter at byte
position 0 of `"\na.b"` with `max_chunk_size = 2` produces an empty
leading chunk in a successful return. -/
theorem chunk_nonempty_counterexample :
    break_english_text [] 5000 = some [[]] ∧
    break_english_text [10, 97, 46, 98] 2 = some [[], [10, 97], [46, 98]] ∧
    ([] : Bytes) ∈ [([] : Bytes), [10, 97], [46, 98]] := by
  refine ⟨by decide, by decide, by decide⟩

/-! ## Synthesis dispatcher (tts.rs, `tts_single` / `join_parallel` / `tts`)

The per-chunk network call `tts_single` is modelled by an abstract function
`single : Bytes → Except Unit Bytes` (the vendor HTTP API is an external
dependency; each call either yields the chunk's audio bytes or fails).
`join_parallel` spawns every future as a task (`tokio::spawn` on each
element) and `futures::future::join_all` awaits **every** task to
completion, returning the outputs in task order — not completion order.
Observable effects of a run are recorded as `Event`s. -/

/-- Observable events of a pipeline run: an admission-limiter check with
its character count, an invocation of the chunker, and a per-chunk TTS
network call that was spawned and awaited to completion. -/
inductive Event
  | rlCheck : Nat → Event
  | chunk : Event
  | ttsCall : Bytes → Event
deriving DecidableEq

/-- `collect::<Result<Vec<_>, _>>()`: stop at the first error in iteration
order, otherwise collect all payloads in order. -/
def collect_results {E A : Type} : List (Except E A) → Except E (List A)
  | [] => Except.ok []
  | Except.error e :: _ => Except.error e
  | Except.ok a :: rest => (collect_results rest).map (fun l => a :: l)

/-- `join_parallel` (tts.rs lines 98–109): every future is spawned via
`tokio::spawn` and `join_all` awaits every spawned task, yielding the
completed tasks' outputs in the order the futures were given. -/
def join_parallel {A : Type} (tasks : List A) : List A := tasks

/-- One spawned per-chunk task: runs `tts_single` on the chunk to
completion, producing the call's result and the record of that call. -/
def run_chunk (single : Bytes → Except Unit Bytes) (c : Bytes) :
    Except Unit Bytes × Event :=
  (single c, Event.ttsCall c)

/-- The dispatcher core of `tts` (tts.rs lines 134–138), instrumented with
the calls that `join_parallel` runs to completion: collect the per-chunk
results (first error wins) and concatenate the audio blobs in chunk
order. -/
def dispatch_traced (single : Bytes → Except Unit Bytes) (chunks : List Bytes) :
    Except Unit Bytes × List Event :=
  let completed := join_parallel (chunks.map (run_chunk single))
  match collect_results (completed.map Prod.fst) with
  | Except.error e => (Except.error e, completed.map Prod.snd)
  | Except.ok blobs => (Except.ok (concat_all blobs), completed.map Prod.snd)

/-- The dispatcher's returned value. -/
def dispatch (single : Bytes → Except Unit Bytes) (chunks : List Bytes) :
    Except Unit Bytes :=
  (dispatch_traced single chunks).1

lemma collect_results_map_ok {E A : Type} (as_ : List A) :
    collect_results (E := E) (as_.map Except.ok) = Except.ok as_ := by
  induction as_ with
  | nil => rfl
  | cons a rest ih => simp [collect_results, ih, Except.map]

lemma collect_results_first_error {E A : Type} (pre : List (Except E A)) (e : E)
    (post : List (Except E A)) (hpre : ∀ r ∈ pre, ∃ a, r = Except.ok a) :
    collect_results (pre ++ Except.error e :: post) = Except.error e := by
  induction pre with
  | nil => rfl
  | cons r rest ih =>
      obtain ⟨a, ha⟩ := hpre r (by simp)
      subst ha
      have := ih (fun r hr => hpre r (by simp [hr]))
      simp [collect_results, this, Except.map]

lemma collect_results_error_unit {A : Type} (rs : List (Except Unit A))
    (h : Except.error () ∈ rs) : collect_results rs = Except.error () := by
  induction rs with
  | nil => cases h
  | cons r rest ih =>
      rcases r with u | a
      · cases u; rfl
      · rcases List.mem_cons.mp h with h' | h'
        · cases h'
        · simp [collect_results, ih h', Except.map]

lemma dispatch_traced_fst (single : Bytes → Except Unit Bytes) (chunks : List Bytes) :
    (dispatch_traced single chunks).1 =
      (collect_results (chunks.map single)).map concat_all := by
  have hfst : Prod.fst ∘ run_chunk single = single := rfl
  unfold dispatch_traced join_parallel
  simp only [List.map_map, hfst]
  rcases h : collect_results (chunks.map single) with e | blobs <;> simp [h, Except.map]

lemma dispatch_traced_snd (single : Bytes → Except Unit Bytes) (chunks : List Bytes) :
    (dispatch_traced single chunks).2 = chunks.map Event.ttsCall := by
  have hfst : Prod.fst ∘ run_chunk single = single := rfl
  have hsnd : Prod.snd ∘ run_chunk single = Event.ttsCall := rfl
  unfold dispatch_traced join_parallel
  simp only [List.map_map, hfst, hsnd]
  rcases h : collect_results (chunks.map single) with e | blobs <;> simp [h]

/-- C3: if every per-chunk call succeeds, with chunk `i` producing audio
bytes `bᵢ`, the dispatcher returns exactly `b₁ ++ b₂ ++ ⋯ ++ bₙ`,
concatenated in original chunk order (the order results are collected in,
independent of completion order); if any per-chunk call fails, the
dispatcher returns an error and no partial audio. -/
theorem dispatch_concat_order (single : Bytes → Except Unit Bytes)
    (chunks blobs : List Bytes) :
    (chunks.map single = blobs.map Except.ok →
      dispatch single chunks = Except.ok (concat_all blobs)) ∧
    ((∃ c ∈ chunks, single c = Except.error ()) →
      dispatch single chunks = Except.error ()) := by
  constructor
  · intro h
    rw [dispatch, dispatch_traced_fst, h, collect_results_map_ok]
    rfl
  · rintro ⟨c, hc, he⟩
    rw [dispatch, dispatch_traced_fst]
    have hmem : Except.error () ∈ chunks.map single :=
      List.mem_map.mpr ⟨c, hc, he⟩
    rw [collect_results_error_unit _ hmem]
    rfl

/-- Witness for `dispatch_concat_order`: a full-success run concatenates in
chunk order, and a run with a failing chunk returns the error. -/
theorem dispatch_concat_order_witness :
    dispatch (fun c => Except.ok (c ++ [0])) [[1], [2]] =
      Except.ok (concat_all [[1, 0], [2, 0]]) ∧
    dispatch (fun _ : Bytes => (Except.error () : Except Unit Bytes)) [[7]] =
      Except.error () :=
  ⟨(dispatch_concat_order (fun c => Except.ok (c ++ [0])) [[1], [2]] [[1, 0], [2, 0]]).1 rfl,
   (dispatch_concat_order (fun _ => Except.error ()) [[7]] []).2 ⟨[7], by simp, rfl⟩⟩

/-- C4 counterexample: with four chunks whose second call fails, the
dispatcher returns the error only after `join_all` has awaited **all**
four spawned per-chunk calls to completion: the completed-call record
still contains the calls for chunks 3 and 4, contradicting
cancel-on-first-failure. -/
theorem cancel_on_failure_counterexample :
    dispatch_traced (fun c => if c = [2] then Except.error () else Except.ok c)
        [[1], [2], [3], [4]] =
      (Except.error (),
       [Event.ttsCall [1], Event.ttsCall [2], Event.ttsCall [3], Event.ttsCall [4]]) := by
  rfl

/-- C4 amended: on a chunk failure the dispatcher does return that first
failure's error (in chunk order), but it starts a task for every chunk and
`join_all` awaits every one of those in-flight calls to completion before
the error is returned: the completed-call record always equals the full
chunk list, independent of where failures occur. -/
theorem dispatch_awaits_all_amended (single : Bytes → Except Unit Bytes)
    (chunks : List Bytes) :
    (dispatch_traced single chunks).2 = chunks.map Event.ttsCall ∧
    (∀ pre c post, chunks = pre ++ c :: post →
      (∀ p ∈ pre, ∃ b, single p = Except.ok b) →
      single c = Except.error () →
      dispatch single chunks = Except.error ()) := by
  refine ⟨dispatch_traced_snd single chunks, ?_⟩
  rintro pre c post rfl hpre he
  rw [dispatch, dispatch_traced_fst, List.map_append, List.map_cons, he,
    collect_results_first_error]
  · rfl
  · rintro r hr
    obtain ⟨p, hp, rfl⟩ := List.mem_map.mp hr
    obtain ⟨b, hb⟩ := hpre p hp
    exact ⟨b, by rw [hb]⟩

/-- Witness for `dispatch_awaits_all_amended` at a concrete input. -/
theorem dispatch_awaits_all_amended_witness :
    (dispatch_traced (fun c => if c = [2] then Except.error () else Except.ok c)
        [[1], [2], [3]]).2 =
      [[1], [2], [3]].map Event.ttsCall ∧
    dispatch (fun c => if c = [2] then Except.error () else Except.ok c)
        [[1], [2], [3]] = Except.error () :=
  ⟨(dispatch_awaits_all_amended _ [[1], [2], [3]]).1,
   (dispatch_awaits_all_amended (fun c => if c = [2] then Except.error () else Except.ok c)
      [[1], [2], [3]]).2 [[1]] [2] [[3]] rfl
      (by rintro p hp; simp at hp; subst hp; exact ⟨[1], rfl⟩) rfl⟩

/-- C9 amended: chunks emitted by the chunker may be empty.  Empty input
text yields exactly one chunk, the empty string (for every
`max_chunk_size`), and a delimiter at position 0 can produce an empty
leading chunk in a successful return. -/
theorem chunk_empty_amended :
    (∀ maxc : Nat, break_english_text [] maxc = some [[]]) ∧
    break_english_text [10, 97, 46, 98] 2 = some [[], [10, 97], [46, 98]] := by
  constructor
  · intro maxc
    simp [break_english_text, break_greedily_at_delims, break_greedily_at_delim,
      compute_breaks, match_indices, break_step, split_at_multi, split_at_multi_go,
      flat_map]
  · decide

/-! ## Identifier derivation (util.rs, `hash_article` / `derive_article_id`)

`hash_article` computes `H(title_len ‖ title ‖ body)` with the title length
written as an 8-byte big-endian `u64` (`BigEndian::write_u64`).  The Blake2s
digest and the zbase32 encoding live in external crates; what the source
controls — and what C7 is about — is the byte stream fed to the hash, which
is modelled exactly by `hash_input`. -/

/-- The 8-byte big-endian encoding of a `u64` length
(`BigEndian::write_u64`). -/
def be64 (n : Nat) : Bytes :=
  [n / 2 ^ 56 % 256, n / 2 ^ 48 % 256, n / 2 ^ 40 % 256, n / 2 ^ 32 % 256,
   n / 2 ^ 24 % 256, n / 2 ^ 16 % 256, n / 2 ^ 8 % 256, n % 256]

/-- The byte stream hashed by `hash_article`:
`title_len_be64 ‖ title ‖ body`. -/
def hash_input (title body : Bytes) : Bytes :=
  be64 title.length ++ title ++ body

/-- `Char::len_utf8` of a Unicode scalar value (here strings are lists of
codepoints when character structure matters). -/
def utf8_size (c : Nat) : Nat :=
  if c < 128 then 1 else if c < 2048 then 2 else if c < 65536 then 3 else 4

/-- Recursive core of `truncate_to_bytes` (util.rs lines 48–71, UTF-8
encoding): `take_while` with a running byte count, keeping the longest
prefix whose encoded size stays within `max_len`. -/
def truncate_go (maxLen : Nat) : List Nat → Nat → List Nat
  | [], _ => []
  | c :: rest, count =>
      if count + utf8_size c ≤ maxLen then c :: truncate_go maxLen rest (count + utf8_size c)
      else []

/-- `truncate_to_bytes(string, max_len, StrEncoding::Utf8)`.  The source
panics when `max_len < 4`; every caller modelled here passes `20`. -/
def truncate_to_bytes (s : List Nat) (maxLen : Nat) : List Nat :=
  truncate_go maxLen s 0

/-- `derive_article_id` (util.rs lines 93–100):
`format!("{truncated_title}-{hash}.mp3")`, i.e. the sanitized title
truncated to 20 bytes, a `-` (45), the zbase32-encoded hash, and the
literal suffix `.mp3` (46, 109, 112, 51).  `sanitize` models the external
`sanitize_filename` crate and `digestz` models
`zbase32::encode(Blake2s256(hash_input title body), 128)` (external
crates); the hash's input encoding itself is `hash_input` above. -/
def derive_article_id (sanitize : Bytes → Bytes) (digestz : Bytes → Bytes → Bytes)
    (title body : Bytes) : Bytes :=
  truncate_to_bytes (sanitize title) 20 ++ [45] ++ digestz title body ++ [46, 109, 112, 51]

/-- Rust `Path::file_stem` on a file name: the portion before the last
`.` (46), except that a name whose only `.` is its first byte — or a name
with no `.` at all — is its own stem. -/
def file_stem (name : Bytes) : Bytes :=
  match (match_indices 46 name 0).getLast? with
  | none => name
  | some 0 => name
  | some p => name.take p

/-- Rust `Path::with_extension("mp3")` on a file name: drop the current
extension (if any) and append `.mp3`.  This is how `add_article_by_text`
builds the on-disk save path from the derived ID. -/
def with_extension_mp3 (name : Bytes) : Bytes :=
  file_stem name ++ [46, 109, 112, 51]

lemma be64_inj (m n : Nat) (hm : m < 2 ^ 64) (hn : n < 2 ^ 64)
    (h : be64 m = be64 n) : m = n := by
  simp only [be64, List.cons.injEq, and_true] at h
  norm_num at h hm hn
  omega

/-- C7: `derive_article_id` is a pure deterministic function of
`(title, body)` — identical inputs always produce the identical ID — and
the hashed byte stream `be64(title_len) ‖ title ‖ body` is an injective
encoding of the pair, so distinct `(title, body)` pairs (with lengths
representable as `u64`, which `usize` guarantees) always produce distinct
hash inputs. -/
theorem hash_input_injective (t1 b1 t2 b2 : Bytes)
    (h1 : t1.length < 2 ^ 64) (h2 : t2.length < 2 ^ 64)
    (h : hash_input t1 b1 = hash_input t2 b2) :
    (∀ sanitize digestz, derive_article_id sanitize digestz t1 b1 =
      derive_article_id sanitize digestz t1 b1) ∧ t1 = t2 ∧ b1 = b2 := by
  refine ⟨fun _ _ => rfl, ?_⟩
  have h' : be64 t1.length ++ (t1 ++ b1) = be64 t2.length ++ (t2 ++ b2) := by
    simpa [hash_input, List.append_assoc] using h
  obtain ⟨h8, hrest⟩ := List.append_inj h' (by rfl)
  have hlen := be64_inj _ _ h1 h2 h8
  exact List.append_inj hrest hlen

/-- Witness for `hash_input_injective` at a concrete input. -/
theorem hash_input_injective_witness :
    (∀ sanitize digestz, derive_article_id sanitize digestz [1] [2, 3] =
      derive_article_id sanitize digestz [1] [2, 3]) ∧
    ([1] : Bytes) = [1] ∧ ([2, 3] : Bytes) = [2, 3] :=
  hash_input_injective [1] [2, 3] [1] [2, 3] (by decide) (by decide) rfl

lemma match_indices_append (d : Nat) (xs ys : Bytes) (i : Nat) :
    match_indices d (xs ++ ys) i =
      match_indices d xs i ++ match_indices d ys (i + xs.length) := by
  induction xs generalizing i with
  | nil => simp [match_indices]
  | cons b rest ih =>
      have harith : i + 1 + rest.length = i + (rest.length + 1) := by omega
      by_cases hb : b = d <;>
        simp [match_indices, hb, ih, harith]

lemma file_stem_append_mp3 (X : Bytes) (hX : X ≠ []) :
    file_stem (X ++ [46, 109, 112, 51]) = X := by
  have hmp3 : ∀ i, match_indices 46 [46, 109, 112, 51] i = [i] := fun i => rfl
  have hmatch : match_indices 46 (X ++ [46, 109, 112, 51]) 0 =
      match_indices 46 X 0 ++ [X.length] := by
    rw [match_indices_append, hmp3, Nat.zero_add]
  unfold file_stem
  rw [hmatch, List.getLast?_concat]
  cases hL : X.length with
  | zero => exact absurd (List.length_eq_zero.mp hL) hX
  | succ n =>
      show (X ++ [46, 109, 112, 51]).take (n + 1) = X
      have := List.take_left X [46, 109, 112, 51]
      rwa [hL] at this

/-- C10: every ID produced by `derive_article_id` (hence every ID string
the add-article endpoints return) ends with the suffix `.mp3`; the on-disk
name `with_extension("mp3")` applied to it is the ID itself; the catalog
entry's `id` produced by `get_metadata` is that file name's stem, so the
catalog `id` concatenated with `.mp3` equals the ID the add endpoint
returned, and the two interfaces never report an identical ID string for
the same artifact. -/
theorem article_id_mp3_suffix (sanitize : Bytes → Bytes)
    (digestz : Bytes → Bytes → Bytes) (title body : Bytes) :
    List.IsSuffix [46, 109, 112, 51] (derive_article_id sanitize digestz title body) ∧
    with_extension_mp3 (derive_article_id sanitize digestz title body) =
      derive_article_id sanitize digestz title body ∧
    file_stem (with_extension_mp3 (derive_article_id sanitize digestz title body)) ++
        [46, 109, 112, 51] =
      derive_article_id sanitize digestz title body ∧
    file_stem (with_extension_mp3 (derive_article_id sanitize digestz title body)) ≠
      derive_article_id sanitize digestz title body := by
  have hXne : truncate_to_bytes (sanitize title) 20 ++ [45] ++ digestz title body ≠ [] := by
    simp
  have hid : derive_article_id sanitize digestz title body =
      (truncate_to_bytes (sanitize title) 20 ++ [45] ++ digestz title body) ++
        [46, 109, 112, 51] := by
    simp [derive_article_id, List.append_assoc]
  have hstem := file_stem_append_mp3 _ hXne
  have hwe : with_extension_mp3 (derive_article_id sanitize digestz title body) =
      derive_article_id sanitize digestz title body := by
    rw [with_extension_mp3, hid, hstem]
  refine ⟨⟨_, hid.symm⟩, hwe, ?_, ?_⟩
  · rw [hwe, hid, hstem]
  · rw [hwe, hid, hstem]
    intro hEq
    have := congrArg List.length hEq
    simp at this

/-! ## The add-article pipeline (add_article.rs, `add_article_by_text`)

The pipeline is modelled as explicit state passing over the two disk paths
it touches (the final `….mp3` path and the temp `….mp3.tmp` path, both
derived from this submission's ID), the admission limiter's consumed-cell
counter, and the chronological event trace.  Fallible external effects —
the `governor` limiter's admission decision, the exclusive-create open of
the temp file, reading the API key file, the per-chunk TTS network calls,
`write_all` and `rename` — are injected through an `Oracle`.  Per the
`governor` crate's contract (spec §4.3 `try_consume`), a successful
`check_n(n)` consumes `n` cells of quota and a rejected one consumes
nothing. -/

/-- Pipeline error taxonomy (anyhow errors in the source, distinguished
here by the failing stage). -/
inductive PErr
  | tooLarge | quota | duplicate | openTmp | apiKey | unbreakable | synthesis
  | writeFail | renameFail
deriving DecidableEq

/-- The two disk paths a run of the pipeline touches: the final `.mp3`
path and the temporary `.mp3.tmp` path for this submission's ID.  `none`
means no file exists there. -/
structure FS where
  final : Option Bytes
  tmp : Option Bytes
deriving DecidableEq

/-- Injected outcomes of the pipeline's external effects. -/
structure Oracle where
  rlOk : Nat → Bool
  openOk : Bool
  apiKeyOk : Bool
  single : Bytes → Except Unit Bytes
  writeOk : Bool
  renameOk : Bool

/-- Pipeline state: the two paths, the limiter's consumed quota cells,
and the chronological event trace. -/
structure PState where
  fs : FS
  rlConsumed : Nat
  trace : List Event
deriving DecidableEq

/-- `ArticleTextSubmission::serialize` (common/src/lib.rs lines 30–37):
`format!("{}. {}", title, body)`, i.e. the title, the two bytes `. `
(46, 32), then the body. -/
def serialize (title body : Bytes) : Bytes :=
  title ++ [46, 32] ++ body

/-- `MAX_CHARS_PER_REQUEST` (tts.rs line 17). -/
def MAX_CHARS_PER_REQUEST : Nat := 5000

/-- The two ways the `tts` entry point can fail: the chunker could not
satisfy the size ceiling, or a per-chunk network call failed. -/
inductive TtsErr
  | unbreakable | synthesis
deriving DecidableEq

/-- The `tts` entry point (tts.rs lines 112–139): chunk the text with
`break_english_text` at `MAX_CHARS_PER_REQUEST`, then dispatch the chunks
in parallel and concatenate. -/
def tts_traced (single : Bytes → Except Unit Bytes) (text : Bytes) :
    Except TtsErr Bytes × List Event :=
  match break_english_text text MAX_CHARS_PER_REQUEST with
  | none => (Except.error TtsErr.unbreakable, [Event.chunk])
  | some chunks =>
      match dispatch_traced single chunks with
      | (Except.error _, evs) => (Except.error TtsErr.synthesis, Event.chunk :: evs)
      | (Except.ok blob, evs) => (Except.ok blob, Event.chunk :: evs)

/-- How a `tts` failure surfaces in the pipeline's error taxonomy. -/
def tts_err_to_perr : TtsErr → PErr
  | TtsErr.unbreakable => PErr.unbreakable
  | TtsErr.synthesis => PErr.synthesis

/-- `add_article_by_text` (add_article.rs lines 113–198), with
`tts_to_file` (lines 240–257) inlined at its call site.  Order of effects
in the source: serialize the article and take its byte length; consult the
rate limiter with that length (`check_n`); derive the ID (pure); fail if
the final path exists; exclusive-create the temp file; then inside
`tts_to_file` read the API key, chunk + dispatch the TTS, and write the
audio to the temp file — any error out of `tts_to_file` deletes the temp
file (lines 157–165); finally rename temp → final, whose failure path does
**not** delete the temp file. -/
def add_article_by_text (o : Oracle) (title body : Bytes) (st : PState) :
    Except PErr Unit × PState :=
  let text := serialize title body
  let n := text.length
  -- `NonZeroU32::try_from` fails ("Article is far too large") when the
  -- serialized byte length does not fit a `u32`, before the limiter runs.
  if 2 ^ 32 ≤ n then (Except.error PErr.tooLarge, st)
  else
  let st1 : PState := { st with trace := st.trace ++ [Event.rlCheck n] }
  if o.rlOk n = false then (Except.error PErr.quota, st1)
  else
    let st2 : PState := { st1 with rlConsumed := st1.rlConsumed + n }
    if st2.fs.final.isSome then (Except.error PErr.duplicate, st2)
    else if st2.fs.tmp.isSome ∨ o.openOk = false then (Except.error PErr.openTmp, st2)
    else
      let st3 : PState := { st2 with fs := { st2.fs with tmp := some [] } }
      if o.apiKeyOk = false then
        (Except.error PErr.apiKey, { st3 with fs := { st3.fs with tmp := none } })
      else
        match tts_traced o.single text with
        | (Except.error e, evs) =>
            (Except.error (tts_err_to_perr e),
             { st3 with fs := { st3.fs with tmp := none }, trace := st3.trace ++ evs })
        | (Except.ok blob, evs) =>
            let st4 : PState := { st3 with trace := st3.trace ++ evs }
            if o.writeOk = false then
              (Except.error PErr.writeFail, { st4 with fs := { st4.fs with tmp := none } })
            else
              let st5 : PState := { st4 with fs := { st4.fs with tmp := some blob } }
              if o.renameOk = false then (Except.error PErr.renameFail, st5)
              else (Except.ok (), { st5 with fs := { final := some blob, tmp := none } })

/-- C5 counterexample: submitting `(title, body) = ("a", "b")` when a
finished artifact already exists at the final path does fail with the
duplicate error and performs zero TTS calls, but the run consults the
admission limiter first and consumes 4 quota cells
(`"a. b".len()`): the limiter state does not stay unchanged and the
limiter is consulted even though the artifact exists. -/
theorem duplicate_consumes_quota_counterexample :
    add_article_by_text
        ⟨fun _ => true, true, true, fun c => Except.ok c, true, true⟩
        [97] [98] ⟨⟨some [9], none⟩, 0, []⟩ =
      (Except.error PErr.duplicate, ⟨⟨some [9], none⟩, 4, [Event.rlCheck 4]⟩) ∧
    (4 : Nat) ≠ 0 :=
  ⟨rfl, by decide⟩

/-- C5 amended: a submission whose artifact already exists at the final
path fails with the duplicate error before any TTS network call (the trace
holds no chunker or TTS-call event), but only after the admission limiter
has been consulted: when the limiter admits the request it consumes the
serialized article's byte length from the quota, so the limiter state does
not remain unchanged (and were the limiter to reject, the error would be
QuotaExceeded rather than DuplicateArticle). -/
theorem duplicate_fail_fast_amended (o : Oracle) (title body : Bytes)
    (fin0 : Bytes) (tmp0 : Option Bytes) (q : Nat)
    (hfit : (serialize title body).length < 2 ^ 32)
    (hrl : o.rlOk (serialize title body).length = true) :
    add_article_by_text o title body ⟨⟨some fin0, tmp0⟩, q, []⟩ =
      (Except.error PErr.duplicate,
       ⟨⟨some fin0, tmp0⟩, q + (serialize title body).length,
        [Event.rlCheck (serialize title body).length]⟩) := by
  have hnotbig : ¬ 2 ^ 32 ≤ (serialize title body).length := by omega
  simp [add_article_by_text, hnotbig, hrl]
  omega

/-- Witness for `duplicate_fail_fast_amended` at a concrete input. -/
theorem duplicate_fail_fast_amended_witness :
    add_article_by_text
        ⟨fun _ => true, true, true, fun c => Except.ok c, true, true⟩
        [97] [98] ⟨⟨some [9], none⟩, 0, []⟩ =
      (Except.error PErr.duplicate,
       ⟨⟨some [9], none⟩, 0 + (serialize [97] [98]).length,
        [Event.rlCheck (serialize [97] [98]).length]⟩) :=
  duplicate_fail_fast_amended
    ⟨fun _ => true, true, true, fun c => Except.ok c, true, true⟩
    [97] [98] [9] none 0 (by decide) rfl

/-- C6 counterexample: a run in which only the final rename fails returns
the storage error while the temporary `.mp3.tmp` file still holds the full
audio blob: the temp file is **not** deleted before the error is returned
(the rename failure path has no cleanup). -/
theorem tmp_cleanup_counterexample :
    add_article_by_text
        ⟨fun _ => true, true, true, fun c => Except.ok c, true, false⟩
        [97] [98] ⟨⟨none, none⟩, 0, []⟩ =
      (Except.error PErr.renameFail,
       ⟨⟨none, some [97, 46, 32, 98]⟩, 4,
        [Event.rlCheck 4, Event.chunk, Event.ttsCall [97, 46, 32, 98]]⟩) ∧
    (some [97, 46, 32, 98] : Option Bytes) ≠ none :=
  ⟨rfl, by decide⟩

set_option maxHeartbeats 2000000 in
/-- C6 amended: for a run starting with neither a final nor a temp file,
every failure leaves the final `.mp3` path empty; failures in the
OpenTemp stage or anywhere inside `tts_to_file` (API key, chunker, TTS
calls, writing the bytes) leave no temp file behind; but a failure in the
Rename stage leaves the fully-written temp `.mp3.tmp` file on disk — it is
not deleted before the error is returned. -/
theorem tmp_cleanup_amended (o : Oracle) (title body : Bytes) (q : Nat) :
    (∀ e, (add_article_by_text o title body ⟨⟨none, none⟩, q, []⟩).1 = Except.error e →
      (add_article_by_text o title body ⟨⟨none, none⟩, q, []⟩).2.fs.final = none) ∧
    (∀ e, (add_article_by_text o title body ⟨⟨none, none⟩, q, []⟩).1 = Except.error e →
      e ≠ PErr.renameFail →
      (add_article_by_text o title body ⟨⟨none, none⟩, q, []⟩).2.fs.tmp = none) ∧
    ((add_article_by_text o title body ⟨⟨none, none⟩, q, []⟩).1 =
        Except.error PErr.renameFail →
      ∃ blob, (add_article_by_text o title body ⟨⟨none, none⟩, q, []⟩).2.fs.tmp =
        some blob) := by
  rcases htts : tts_traced o.single (serialize title body) with ⟨(_ | _) | blob, evs⟩ <;>
    simp only [add_article_by_text, htts] <;>
    split_ifs <;>
      refine ⟨?_, ?_, ?_⟩ <;>
        simp [tts_err_to_perr]

/-- Witness for `tmp_cleanup_amended` at a concrete input: the rename
failure leaves the temp blob on disk and the final path empty. -/
theorem tmp_cleanup_amended_witness :
    (add_article_by_text
        ⟨fun _ => true, true, true, fun c => Except.ok c, true, false⟩
        [97] [98] ⟨⟨none, none⟩, 0, []⟩).2.fs.final = none ∧
    (∃ blob, (add_article_by_text
        ⟨fun _ => true, true, true, fun c => Except.ok c, true, false⟩
        [97] [98] ⟨⟨none, none⟩, 0, []⟩).2.fs.tmp = some blob) :=
  ⟨(tmp_cleanup_amended
      ⟨fun _ => true, true, true, fun c => Except.ok c, true, false⟩ [97] [98] 0).1
      PErr.renameFail rfl,
   (tmp_cleanup_amended
      ⟨fun _ => true, true, true, fun c => Except.ok c, true, false⟩ [97] [98] 0).2.2 rfl⟩

/-- C8 counterexample: for `(title, body) = ("a", "b")` the single
limiter check is charged 4 cells — the byte length of the serialized
article `"a. b"` — not 1, the byte length of the body alone. -/
theorem quota_charge_counterexample :
    add_article_by_text
        ⟨fun _ => true, true, true, fun c => Except.ok c, true, true⟩
        [97] [98] ⟨⟨none, none⟩, 0, []⟩ =
      (Except.ok (),
       ⟨⟨some [97, 46, 32, 98], none⟩, 4,
        [Event.rlCheck 4, Event.chunk, Event.ttsCall [97, 46, 32, 98]]⟩) ∧
    (4 : Nat) ≠ ([98] : Bytes).length :=
  ⟨rfl, by decide⟩

/-- Recognises an admission-limiter event. -/
def is_rl_check : Event → Bool
  | Event.rlCheck _ => true
  | _ => false

lemma tts_events_not_rl (single : Bytes → Except Unit Bytes) (text : Bytes) :
    ∀ e ∈ (tts_traced single text).2, is_rl_check e = false := by
  intro e he
  rcases hb : break_english_text text MAX_CHARS_PER_REQUEST with _ | chunks
  · simp only [tts_traced, hb] at he
    simp at he
    subst he
    rfl
  · have hsnd := dispatch_traced_snd single chunks
    rcases hd : dispatch_traced single chunks with ⟨r | blob, evs⟩ <;>
      rw [hd] at hsnd <;>
      subst hsnd <;>
      simp only [tts_traced, hb, hd] at he <;>
      rcases List.mem_cons.mp he with h | h
    all_goals try (subst h; rfl)
    all_goals obtain ⟨c, hc, rfl⟩ := List.mem_map.mp h
    all_goals rfl

lemma countP_rl_zero (evs : List Event)
    (h : ∀ e ∈ evs, is_rl_check e = false) :
    evs.countP is_rl_check = 0 := by
  rw [List.countP_eq_zero]
  intro e he
  simp [h e he]

/-- C8 amended: the admission-limiter check happens exactly once per whole
submission — it is the very first event of the run's trace, so in
particular it precedes any chunking, and no further limiter check occurs
in the run — and the quantity it is charged is the byte length of the
**serialized** submission `format!("{}. {}", title, body)`, i.e.
`title_len + 2 + body_len`: the title and the joining `". "` bytes are
included, not the body alone, and the amount is independent of how many
chunks the chunker later produces. -/
lemma add_article_trace_shape (o : Oracle) (title body : Bytes) (st : PState)
    (hfit : (serialize title body).length < 2 ^ 32) :
    ∃ evs, (add_article_by_text o title body st).2.trace =
      st.trace ++ Event.rlCheck (serialize title body).length :: evs ∧
      ∀ e ∈ evs, is_rl_check e = false := by
  have hevs := tts_events_not_rl o.single (serialize title body)
  rcases htts : tts_traced o.single (serialize title body) with ⟨te | blob, evs⟩ <;>
    rw [htts] at hevs <;>
    simp only [add_article_by_text, htts] <;>
    split_ifs <;>
      first
        | (exfalso; omega)
        | exact ⟨[], rfl, by simp⟩
        | (refine ⟨evs, ?_, hevs⟩
           simp)

/-- C8 amended: the admission-limiter check happens exactly once per whole
submission — it is the very first event of the run's trace, so in
particular it precedes any chunking, and no further limiter check occurs
in the run — and the quantity it is charged is the byte length of the
**serialized** submission `format!("{}. {}", title, body)`, i.e.
`title_len + 2 + body_len`: the title and the joining `". "` bytes are
included, not the body alone, and the amount is independent of how many
chunks the chunker later produces. -/
theorem limiter_once_before_chunking_amended (o : Oracle) (title body : Bytes)
    (fs0 : FS) (q : Nat)
    (hfit : (serialize title body).length < 2 ^ 32) :
    (add_article_by_text o title body ⟨fs0, q, []⟩).2.trace.head? =
      some (Event.rlCheck (title.length + 2 + body.length)) ∧
    (add_article_by_text o title body ⟨fs0, q, []⟩).2.trace.countP is_rl_check = 1 := by
  have hlen : (serialize title body).length = title.length + 2 + body.length := by
    simp [serialize]
    omega
  obtain ⟨evs, htr, hevs⟩ := add_article_trace_shape o title body ⟨fs0, q, []⟩ hfit
  constructor
  · rw [htr]
    simp [hlen]
  · rw [htr]
    simp [List.countP_cons, is_rl_check, countP_rl_zero evs hevs]

/-- Witness for `limiter_once_before_chunking_amended` at a concrete
input. -/
theorem limiter_once_before_chunking_amended_witness :
    (add_article_by_text ⟨fun _ => true, true, true, fun c => Except.ok c, true, true⟩
        [97] [98] ⟨⟨none, none⟩, 0, []⟩).2.trace.head? =
      some (Event.rlCheck (List.length ([97] : Bytes) + 2 + List.length ([98] : Bytes))) ∧
    (add_article_by_text ⟨fun _ => true, true, true, fun c => Except.ok c, true, true⟩
        [97] [98] ⟨⟨none, none⟩, 0, []⟩).2.trace.countP is_rl_check = 1 :=
  limiter_once_before_chunking_amended
    ⟨fun _ => true, true, true, fun c => Except.ok c, true, true⟩
    [97] [98] ⟨none, none⟩ 0 (by decide)

end RTMS
